import Mathlib

/-!
# Verification of GenomeTreeTk marker routines

A shallow embedding of `genome_tree_tk/markers/consistencyTest.py` and
`genome_tree_tk/markers/infer_markers.py`, together with theorems settling
the specification claims about them.

Modelling conventions:
* Python 2 floats are modelled as exact rationals (`ℚ`); Python integer
  arithmetic inside score formulas is carried out in `ℚ` as well, so that
  subtraction and division behave as in the source.
* Python dicts are modelled as association lists (`List (α × β)` with
  `List.lookup`) or, when only keys and point lookups matter, as a key list
  plus a value function.  Per-key dict updates whose new value depends only
  on the key's own old value are modelled as per-key folds.
* The dendropy tree is an external collaborator of the scorer; it is
  modelled through the interface the scorer consumes (`PTree`): the leaf
  label list of `tree.leaf_nodes()` and, for every node of
  `tree.internal_nodes()`, the leaf label list of `node.leaf_nodes()`,
  together with the structural fact that a subtree's leaves form a
  subsequence of the tree's depth-first leaf list.
* File output is modelled as lists of rows of cells; a cell records which
  formatting the source applies (`str`, `'%.2f' % (x*100)`, a literal).
-/

namespace GenomeTreeTk

abbrev Label := String

/-- An ordered 3-element taxonomy vector: rank 0 = domain, 1 = phylum,
2 = class, exactly as `genomeIdToTaxonomy[genomeId][r]` for `r in xrange(0,3)`. -/
abbrev Taxonomy := Fin 3 → Label

/-! ## `ConsistencyTest.__genomeId` -/

/-- Model of Python `str.split(sep)` for a one-character separator:
the list of (possibly empty) segments between occurrences of `sep`. -/
def pySplit (sep : Char) : List Char → List (List Char)
  | [] => [[]]
  | c :: rest =>
    let r := pySplit sep rest
    if c = sep then [] :: r
    else (c :: r.headD []) :: r.tail

/-- `ConsistencyTest.__genomeId` on the character list of the label:
strip a leading `IMG_`; else take the part before the first `|`;
else the label verbatim. -/
def genomeIdL (taxaLabel : List Char) : List Char :=
  if ("IMG_".toList).isPrefixOf taxaLabel then taxaLabel.drop 4
  else if taxaLabel.contains '|' then (pySplit '|' taxaLabel).headD []
  else taxaLabel

/-- `ConsistencyTest.__genomeId`, acting on `String` labels. -/
def genomeId (taxaLabel : String) : String :=
  String.mk (genomeIdL taxaLabel.toList)

theorem pySplit_ne_nil (sep : Char) (l : List Char) : pySplit sep l ≠ [] := by
  cases l with
  | nil => simp [pySplit]
  | cons c rest =>
    simp only [pySplit]
    split <;> simp

theorem pySplit_head_eq_takeWhile (sep : Char) (l : List Char) :
    (pySplit sep l).headD [] = l.takeWhile (fun c => c != sep) := by
  induction l with
  | nil => simp [pySplit]
  | cons c rest ih =>
    by_cases h : c = sep
    · simp [pySplit, h]
    · simp only [List.headD_eq_head?] at ih
      simp [pySplit, h, ih]

/-! ## The tree interface -/

/-- Abstract view of a dendropy tree, as consumed by the scorer:
`leaves` is the label list of `tree.leaf_nodes()` in traversal order;
`nodes` holds, for every node of `tree.internal_nodes()`, the label list of
`node.leaf_nodes()`.  `nodes_sublist` records the structural fact that a
depth-first traversal lists the leaves of any subtree as a contiguous
subsequence of the tree's leaf list. -/
structure PTree where
  leaves : List String
  nodes : List (List String)
  nodes_sublist : ∀ nd ∈ nodes, nd.Sublist leaves

/-! ## Totals and per-node leaf counts -/

/-- The rank-`r` taxon labels of a leaf label list, resolved through
`genomeId` and the taxonomy lookup `lk` (each loop over leaves reads
`genomeIdToTaxonomy[self.__genomeId(leaf.taxon.label)][r]`). -/
def nodeTaxaList (lk : String → Taxonomy) (nd : List String) (r : Fin 3) : List Label :=
  nd.map fun lbl => lk (genomeId lbl) r

/-- `leafCounts.get(taxa, 0)` for a node with leaf labels `nd`: leaves
under the node whose rank-`r` taxon is `taxa`. -/
def taxaCountUnder (lk : String → Taxonomy) (nd : List String) (r : Fin 3) (taxa : Label) : ℕ :=
  (nodeTaxaList lk nd r).count taxa

/-- `len(leaves)` for a node with leaf labels `nd`. -/
def leavesUnder (nd : List String) : ℕ := nd.length

/-- `totals[r].get(taxa, 0)`: the tree-wide count of leaves carrying `taxa`
at rank `r` (`totalValidLeaves` is `leavesUnder t.leaves`, as every leaf
passes the metadata check on a successful run). -/
def totalsOf (lk : String → Taxonomy) (t : PTree) (r : Fin 3) (taxa : Label) : ℕ :=
  taxaCountUnder lk t.leaves r taxa

/-- The dict accumulation `totals[r][ty] = totals[r].get(ty, 0) + 1`
performed over the leaves, modelled as a fold with pointwise update. -/
def buildTotals (tys : List Label) : Label → ℕ :=
  tys.foldl (fun acc ty => Function.update acc ty (acc ty + 1)) (fun _ => 0)

theorem buildTotals_foldl_aux (tys : List Label) (acc : Label → ℕ) (taxa : Label) :
    tys.foldl (fun acc ty => Function.update acc ty (acc ty + 1)) acc taxa
      = acc taxa + tys.count taxa := by
  induction tys generalizing acc with
  | nil => simp
  | cons ty rest ih =>
    rw [List.foldl_cons, ih, List.count_cons]
    by_cases h : ty = taxa
    · subst h; simp [Function.update]
      omega
    · simp [Function.update, h, Ne.symm h]

/-- The imperative totals accumulation computes exactly the leaf count. -/
theorem buildTotals_eq_count (tys : List Label) (taxa : Label) :
    buildTotals tys taxa = tys.count taxa := by
  simpa using buildTotals_foldl_aux tys (fun _ => 0) taxa

theorem nodeTaxaList_sublist {t : PTree} {nd : List String} (h : nd ∈ t.nodes)
    (lk : String → Taxonomy) (r : Fin 3) :
    (nodeTaxaList lk nd r).Sublist (nodeTaxaList lk t.leaves r) :=
  (t.nodes_sublist nd h).map _

theorem taxaCountUnder_le_total {t : PTree} {nd : List String} (h : nd ∈ t.nodes)
    (lk : String → Taxonomy) (r : Fin 3) (taxa : Label) :
    taxaCountUnder lk nd r taxa ≤ totalsOf lk t r taxa :=
  (nodeTaxaList_sublist h lk r).count_le taxa

theorem taxaCountUnder_le_leaves (lk : String → Taxonomy) (nd : List String)
    (r : Fin 3) (taxa : Label) :
    taxaCountUnder lk nd r taxa ≤ leavesUnder nd := by
  have := List.count_le_length taxa (nodeTaxaList lk nd r)
  simpa [taxaCountUnder, leavesUnder, nodeTaxaList] using this

theorem sublist_length_add_count_le {l₁ l₂ : List Label} (h : l₁.Sublist l₂)
    (taxa : Label) :
    l₁.length + l₂.count taxa ≤ l₂.length + l₁.count taxa := by
  induction h with
  | slnil => simp
  | cons a h ih =>
    simp only [List.length_cons, List.count_cons] at *
    split <;> omega
  | cons₂ a h ih =>
    simp only [List.length_cons, List.count_cons] at *
    split <;> omega

/-- Leaves outside the taxon under a node never exceed those outside it in
the whole tree: the complementary incongruent term is non-negative
(stated additively to avoid truncated subtraction). -/
theorem leaves_add_total_le {t : PTree} {nd : List String} (h : nd ∈ t.nodes)
    (lk : String → Taxonomy) (r : Fin 3) (taxa : Label) :
    leavesUnder nd + totalsOf lk t r taxa
      ≤ leavesUnder t.leaves + taxaCountUnder lk nd r taxa := by
  have := sublist_length_add_count_le (nodeTaxaList_sublist h lk r) taxa
  simpa [leavesUnder, nodeTaxaList, taxaCountUnder, totalsOf] using this

/-! ## The per-taxon consistency value -/

/-- A value of `consistencyDict[r]`: a numeric score or the string `'N/A'`. -/
inductive ConsVal where
  | NA : ConsVal
  | num : ℚ → ConsVal
deriving DecidableEq

/-- The Python 2 comparison `c > v` between the float candidate `c` and the
current dict value `v`: when `v` is the string `'N/A'`, a number never
compares greater than a string in Python 2, so the test is false. -/
def ConsVal.ltNum : ConsVal → ℚ → Bool
  | .NA, _ => false
  | .num q, c => decide (q < c)

/-- Direct-side candidate score (lines 142–144):
`taxaCount = leafCounts.get(taxa, 0)`,
`incongruentTaxa = len(leaves) - taxaCount`,
`c = taxaCount / (totalTaxaCount + incongruentTaxa)`. -/
def dCand (lk : String → Taxonomy) (nd : List String) (r : Fin 3) (taxa : Label)
    (totalTaxaCount : ℕ) : ℚ :=
  (taxaCountUnder lk nd r taxa : ℚ) /
    ((totalTaxaCount : ℚ) +
      ((leavesUnder nd : ℚ) - (taxaCountUnder lk nd r taxa : ℚ)))

/-- Complementary-side candidate score (lines 149–151):
`taxaCount = totalTaxaCount - leafCounts.get(taxa, 0)`,
`incongruentTaxa = totalValidLeaves - len(leaves) - taxaCount`,
`c = taxaCount / (totalTaxaCount + incongruentTaxa)`. -/
def cCand (lk : String → Taxonomy) (nd : List String) (r : Fin 3) (taxa : Label)
    (totalTaxaCount totalValidLeaves : ℕ) : ℚ :=
  ((totalTaxaCount : ℚ) - (taxaCountUnder lk nd r taxa : ℚ)) /
    ((totalTaxaCount : ℚ) +
      ((totalValidLeaves : ℚ) - (leavesUnder nd : ℚ) -
        ((totalTaxaCount : ℚ) - (taxaCountUnder lk nd r taxa : ℚ))))

/-- Body of the scoring loop (consistencyTest.py lines 136–153) for one
taxon at one internal node: divert to `'N/A'` when the tree-wide total is
`≤ 1` or the label is `unclassified`; otherwise accumulate (by the strict
`>` test) first the direct-side candidate, then the complementary-side
candidate. -/
def updateForNode (lk : String → Taxonomy) (r : Fin 3) (taxa : Label)
    (totalTaxaCount totalValidLeaves : ℕ) (nd : List String) (v : ConsVal) : ConsVal :=
  if totalTaxaCount ≤ 1 ∨ taxa = "unclassified" then ConsVal.NA
  else
    let c : ℚ := dCand lk nd r taxa totalTaxaCount
    let v1 := if v.ltNum c then ConsVal.num c else v
    let c2 : ℚ := cCand lk nd r taxa totalTaxaCount totalValidLeaves
    if v1.ltNum c2 then ConsVal.num c2 else v1

/-- Final value of `consistencyDict[r][taxa]` after the node scan.  The
entry is initialised to `0` in the totals pass; since each dict key is
updated only from its own previous value, the dict is modelled per key as a
fold of `updateForNode` over the internal nodes. -/
def consistencyFor (lk : String → Taxonomy) (t : PTree) (r : Fin 3) (taxa : Label) : ConsVal :=
  t.nodes.foldl
    (fun v nd => updateForNode lk r taxa (totalsOf lk t r taxa) (leavesUnder t.leaves) nd v)
    (ConsVal.num 0)

/-- Key insertion into a dict key list (first occurrence kept). -/
def insertKey (acc : List Label) (taxa : Label) : List Label :=
  if taxa ∈ acc then acc else acc ++ [taxa]

/-- Keys of `consistencyDict[r]`: rank-`r` taxa of the tree's leaves, in
first-insertion order. -/
def treeTaxa (lk : String → Taxonomy) (t : PTree) (r : Fin 3) : List Label :=
  (nodeTaxaList lk t.leaves r).foldl insertKey []

theorem mem_foldl_insertKey (l : List Label) (acc : List Label) (taxa : Label) :
    taxa ∈ l.foldl insertKey acc ↔ taxa ∈ acc ∨ taxa ∈ l := by
  induction l generalizing acc with
  | nil => simp
  | cons x rest ih =>
    rw [List.foldl_cons, ih]
    unfold insertKey
    by_cases h : x ∈ acc
    · simp only [if_pos h, List.mem_cons]
      constructor
      · rintro (h' | h')
        · exact Or.inl h'
        · exact Or.inr (Or.inr h')
      · rintro (h' | rfl | h')
        · exact Or.inl h'
        · exact Or.inl h
        · exact Or.inr h'
    · simp only [if_neg h, List.mem_append, List.mem_singleton, List.mem_cons]
      tauto

/-- A taxon is a key of the tree's consistency dict at rank `r` iff some
leaf of the tree carries it at rank `r`. -/
theorem mem_treeTaxa_iff (lk : String → Taxonomy) (t : PTree) (r : Fin 3) (taxa : Label) :
    taxa ∈ treeTaxa lk t r ↔ taxa ∈ nodeTaxaList lk t.leaves r := by
  rw [treeTaxa, mem_foldl_insertKey]
  simp

/-! ## Per-rank averages (lines 176–187) -/

/-- `sumConsistency`: the numeric scores of taxa whose tree-wide total
exceeds `minTaxaForAverage`, in dict-key order. -/
def sumConsistencyList (lk : String → Taxonomy) (t : PTree) (r : Fin 3)
    (minTaxaForAverage : ℤ) : List ℚ :=
  (treeTaxa lk t r).filterMap fun taxa =>
    if minTaxaForAverage < (totalsOf lk t r taxa : ℤ) then
      match consistencyFor lk t r taxa with
      | ConsVal.num q => some q
      | ConsVal.NA => none
    else none

/-- The rank-`r` average: mean of `sumConsistency`, or `0` when empty. -/
def rankAverage (lk : String → Taxonomy) (t : PTree) (r : Fin 3)
    (minTaxaForAverage : ℤ) : ℚ :=
  if 0 < (sumConsistencyList lk t r minTaxaForAverage).length then
    (sumConsistencyList lk t r minTaxaForAverage).sum /
      ((sumConsistencyList lk t r minTaxaForAverage).length : ℚ)
  else 0

/-! ## Properties of the node scan -/

theorem consval_step (v c : ℚ) :
    (if (ConsVal.num v).ltNum c then ConsVal.num c else ConsVal.num v)
      = ConsVal.num (max v c) := by
  simp only [ConsVal.ltNum, decide_eq_true_eq]
  rcases lt_or_le v c with h | h
  · rw [if_pos h, max_eq_right h.le]
  · rw [if_neg (not_lt.2 h), max_eq_left h]

/-- On a numeric value, the non-diverted loop body accumulates the maximum
of the old value and the two candidates. -/
theorem updateForNode_num (lk : String → Taxonomy) (r : Fin 3) (taxa : Label)
    (total L : ℕ) (nd : List String)
    (h : ¬(total ≤ 1 ∨ taxa = "unclassified")) (v : ℚ) :
    updateForNode lk r taxa total L nd (ConsVal.num v)
      = ConsVal.num (max (max v (dCand lk nd r taxa total)) (cCand lk nd r taxa total L)) := by
  unfold updateForNode
  rw [if_neg h]
  simp only [consval_step]

/-- When the divert condition holds, the loop body yields 'N/A' whatever the
current value. -/
theorem updateForNode_na (lk : String → Taxonomy) (r : Fin 3) (taxa : Label)
    (total L : ℕ) (nd : List String)
    (h : total ≤ 1 ∨ taxa = "unclassified") (v : ConsVal) :
    updateForNode lk r taxa total L nd v = ConsVal.NA := by
  unfold updateForNode
  rw [if_pos h]

/-- A value of 'N/A' is never overwritten (Python 2 never ranks a float
above a string), so the scan preserves it. -/
theorem updateForNode_of_na (lk : String → Taxonomy) (r : Fin 3) (taxa : Label)
    (total L : ℕ) (nd : List String) :
    updateForNode lk r taxa total L nd ConsVal.NA = ConsVal.NA := by
  unfold updateForNode
  split
  · rfl
  · simp [ConsVal.ltNum]

theorem foldr_max_shift (l : List ℚ) (a b : ℚ) :
    l.foldr max (max a b) = max b (l.foldr max a) := by
  induction l with
  | nil => simp [max_comm]
  | cons x xs ih => rw [List.foldr_cons, List.foldr_cons, ih, max_left_comm]

/-- All candidate scores of the node scan for `taxa` at rank `r`: for every
internal node, the direct-side score then the complementary-side score. -/
def candidateScores (lk : String → Taxonomy) (t : PTree) (r : Fin 3) (taxa : Label) : List ℚ :=
  t.nodes.flatMap fun nd =>
    [dCand lk nd r taxa (totalsOf lk t r taxa),
     cCand lk nd r taxa (totalsOf lk t r taxa) (leavesUnder t.leaves)]

theorem consistency_fold_max (lk : String → Taxonomy) (r : Fin 3) (taxa : Label)
    (total L : ℕ) (h : ¬(total ≤ 1 ∨ taxa = "unclassified")) (nds : List (List String)) :
    ∀ v : ℚ,
      nds.foldl (fun v nd => updateForNode lk r taxa total L nd v) (ConsVal.num v)
        = ConsVal.num
            ((nds.flatMap fun nd => [dCand lk nd r taxa total, cCand lk nd r taxa total L]).foldr
              max v) := by
  induction nds with
  | nil => intro v; simp
  | cons nd rest ih =>
    intro v
    rw [List.foldl_cons, updateForNode_num lk r taxa total L nd h v, ih,
      List.flatMap_cons, List.cons_append, List.singleton_append, List.foldr_cons,
      List.foldr_cons, foldr_max_shift, foldr_max_shift, max_left_comm]

/-- Geometric facts about the two candidate formulas at an internal node of
`t`, when the tree-wide total is at least 2: both incongruent terms are
non-negative, both denominators are ≥ 2, and both candidates lie in [0,1]. -/
theorem candidate_bounds {t : PTree} {nd : List String} (hnd : nd ∈ t.nodes)
    (lk : String → Taxonomy) (r : Fin 3) (taxa : Label)
    (htot : 2 ≤ totalsOf lk t r taxa) :
    0 ≤ (leavesUnder nd : ℚ) - (taxaCountUnder lk nd r taxa : ℚ)
    ∧ 0 ≤ (leavesUnder t.leaves : ℚ) - (leavesUnder nd : ℚ) -
        ((totalsOf lk t r taxa : ℚ) - (taxaCountUnder lk nd r taxa : ℚ))
    ∧ 2 ≤ (totalsOf lk t r taxa : ℚ) +
        ((leavesUnder nd : ℚ) - (taxaCountUnder lk nd r taxa : ℚ))
    ∧ 2 ≤ (totalsOf lk t r taxa : ℚ) +
        ((leavesUnder t.leaves : ℚ) - (leavesUnder nd : ℚ) -
          ((totalsOf lk t r taxa : ℚ) - (taxaCountUnder lk nd r taxa : ℚ)))
    ∧ 0 ≤ dCand lk nd r taxa (totalsOf lk t r taxa)
    ∧ dCand lk nd r taxa (totalsOf lk t r taxa) ≤ 1
    ∧ 0 ≤ cCand lk nd r taxa (totalsOf lk t r taxa) (leavesUnder t.leaves)
    ∧ cCand lk nd r taxa (totalsOf lk t r taxa) (leavesUnder t.leaves) ≤ 1 := by
  have h1 : taxaCountUnder lk nd r taxa ≤ leavesUnder nd :=
    taxaCountUnder_le_leaves lk nd r taxa
  have h2 : taxaCountUnder lk nd r taxa ≤ totalsOf lk t r taxa :=
    taxaCountUnder_le_total hnd lk r taxa
  have h3 : leavesUnder nd + totalsOf lk t r taxa
      ≤ leavesUnder t.leaves + taxaCountUnder lk nd r taxa :=
    leaves_add_total_le hnd lk r taxa
  have q1 : (taxaCountUnder lk nd r taxa : ℚ) ≤ (leavesUnder nd : ℚ) := by
    exact_mod_cast h1
  have q2 : (taxaCountUnder lk nd r taxa : ℚ) ≤ (totalsOf lk t r taxa : ℚ) := by
    exact_mod_cast h2
  have q3 : (leavesUnder nd : ℚ) + (totalsOf lk t r taxa : ℚ)
      ≤ (leavesUnder t.leaves : ℚ) + (taxaCountUnder lk nd r taxa : ℚ) := by
    exact_mod_cast h3
  have qt : (2 : ℚ) ≤ (totalsOf lk t r taxa : ℚ) := by exact_mod_cast htot
  have q0 : (0 : ℚ) ≤ (taxaCountUnder lk nd r taxa : ℚ) := by positivity
  refine ⟨by linarith, by linarith, by linarith, by linarith, ?_, ?_, ?_, ?_⟩
  · exact div_nonneg q0 (by linarith)
  · unfold dCand
    rw [div_le_one (by linarith)]
    linarith
  · exact div_nonneg (by linarith) (by linarith)
  · unfold cCand
    rw [div_le_one (by linarith)]
    linarith

/-- 'N/A', once set, is preserved by the whole scan; and once the divert
condition holds, any non-empty scan ends in 'N/A'. -/
theorem foldl_update_na (lk : String → Taxonomy) (r : Fin 3) (taxa : Label)
    (total L : ℕ) (h : total ≤ 1 ∨ taxa = "unclassified") (nds : List (List String)) :
    ∀ v : ConsVal,
      nds.foldl (fun v nd => updateForNode lk r taxa total L nd v) v
        = if nds.isEmpty then v else ConsVal.NA := by
  induction nds with
  | nil => intro v; simp
  | cons nd rest ih =>
    intro v
    rw [List.foldl_cons, updateForNode_na lk r taxa total L nd h, ih]
    cases rest <;> simp

/-- The range invariant of a consistency value: 'N/A' or a score in [0,1]. -/
def inRange (v : ConsVal) : Prop :=
  v = ConsVal.NA ∨ ∃ q, v = ConsVal.num q ∧ 0 ≤ q ∧ q ≤ 1

theorem foldl_update_range (lk : String → Taxonomy) (t : PTree) (r : Fin 3)
    (taxa : Label) (nds : List (List String))
    (hsub : ∀ nd ∈ nds, nd ∈ t.nodes) :
    ∀ v : ConsVal, inRange v →
      inRange (nds.foldl
        (fun v nd => updateForNode lk r taxa (totalsOf lk t r taxa) (leavesUnder t.leaves) nd v) v) := by
  induction nds with
  | nil => intro v hv; simpa
  | cons nd rest ih =>
    intro v hv
    rw [List.foldl_cons]
    refine ih (fun x hx => hsub x (List.mem_cons_of_mem _ hx)) _ ?_
    by_cases hc : totalsOf lk t r taxa ≤ 1 ∨ taxa = "unclassified"
    · rw [updateForNode_na _ _ _ _ _ _ hc]
      exact Or.inl rfl
    · have htot : 2 ≤ totalsOf lk t r taxa := by
        push_neg at hc
        omega
      have hb := candidate_bounds (hsub nd (List.mem_cons_self _ _)) lk r taxa htot
      rcases hv with rfl | ⟨q, rfl, hq0, hq1⟩
      · rw [updateForNode_of_na]
        exact Or.inl rfl
      · rw [updateForNode_num _ _ _ _ _ _ hc]
        refine Or.inr ⟨_, rfl, ?_, ?_⟩
        · exact le_trans hq0 (le_trans (le_max_left _ _) (le_max_left _ _))
        · exact max_le (max_le hq1 hb.2.2.2.2.2.1) hb.2.2.2.2.2.2.2

/-! ## Concrete instances used by witnesses and counterexamples -/

/-- The 4-leaf scenario of the specification: taxa A,A,A,B at rank 0; the
internal nodes are the root and the two cherries. -/
def exTree : PTree where
  leaves := ["a1", "a2", "a3", "b1"]
  nodes := [["a1", "a2", "a3", "b1"], ["a1", "a2"], ["a3", "b1"]]
  nodes_sublist := by decide

/-- A tree whose dendropy encoding is the single-leaf newick `a1;`:
one leaf, no internal node. -/
def exLeafTree : PTree where
  leaves := ["a1"]
  nodes := []
  nodes_sublist := by decide

/-- A 2-leaf tree whose two taxa both have tree-wide total 1. -/
def exPairTree : PTree where
  leaves := ["a1", "b1"]
  nodes := [["a1", "b1"]]
  nodes_sublist := by decide

/-- Example taxonomy lookup: `b1` lies in taxon B at rank 0, the other
genomes in taxon A; other ranks carry a constant label X. -/
def exLk : String → Taxonomy := fun g r =>
  if g = "b1" then (if r.val = 0 then "B" else "X")
  else (if r.val = 0 then "A" else "X")

/-! ## Claim theorems for the scoring loop -/

/-- C1: for every tree, rank and taxon present in the tree's consistency
map whose tree-wide total is at least 2 and whose label is not
'unclassified', the final recorded score is the numeric maximum, over all
internal nodes and both orientations of each bipartition, of the candidate
scores (with 0 as the value when no candidate exceeds it). -/
theorem consistency_eq_max_candidates (lk : String → Taxonomy) (t : PTree)
    (r : Fin 3) (taxa : Label)
    (hmem : taxa ∈ treeTaxa lk t r)
    (htot : 2 ≤ totalsOf lk t r taxa)
    (huncl : taxa ≠ "unclassified") :
    consistencyFor lk t r taxa
      = ConsVal.num ((candidateScores lk t r taxa).foldr max 0) := by
  have h : ¬(totalsOf lk t r taxa ≤ 1 ∨ taxa = "unclassified") := by
    push_neg
    exact ⟨by omega, huncl⟩
  unfold consistencyFor candidateScores
  exact consistency_fold_max lk r taxa (totalsOf lk t r taxa) (leavesUnder t.leaves) h
    t.nodes 0

theorem consistency_eq_max_candidates_witness :
    consistencyFor exLk exTree 0 "A"
      = ConsVal.num ((candidateScores exLk exTree 0 "A").foldr max 0) :=
  consistency_eq_max_candidates exLk exTree 0 "A" (by decide) (by decide) (by decide)

/-- C2 counterexample: in a single-leaf tree there is no internal node, so
the totals-pass initialisation survives: the sole taxon has tree-wide total
1, yet its final map value is the numeric 0 and not the 'N/A' sentinel. -/
theorem consistency_total_one_not_na :
    totalsOf exLk exLeafTree 0 "A" = 1
    ∧ "A" ∈ treeTaxa exLk exLeafTree 0
    ∧ consistencyFor exLk exLeafTree 0 "A" = ConsVal.num 0
    ∧ consistencyFor exLk exLeafTree 0 "A" ≠ ConsVal.NA := by
  refine ⟨by decide, by decide, rfl, by decide⟩

/-- C2 (amended): every final map value is 'N/A' or a numeric score in
[0,1]; and provided the tree has at least one internal node, a taxon with
tree-wide total ≤ 1 or label 'unclassified' always ends as 'N/A' (in a
tree with no internal node the initial numeric 0 survives instead). -/
theorem consistency_range_and_na (lk : String → Taxonomy) (t : PTree)
    (r : Fin 3) (taxa : Label) (hmem : taxa ∈ treeTaxa lk t r) :
    (consistencyFor lk t r taxa = ConsVal.NA
      ∨ ∃ q, consistencyFor lk t r taxa = ConsVal.num q ∧ 0 ≤ q ∧ q ≤ 1)
    ∧ (t.nodes ≠ [] →
        totalsOf lk t r taxa ≤ 1 ∨ taxa = "unclassified" →
        consistencyFor lk t r taxa = ConsVal.NA) := by
  constructor
  · exact foldl_update_range lk t r taxa t.nodes (fun _ h => h) _
      (Or.inr ⟨0, rfl, le_refl 0, by norm_num⟩)
  · intro hne hc
    rw [consistencyFor, foldl_update_na lk r taxa _ _ hc]
    simp [hne]

theorem consistency_range_and_na_witness :
    ((consistencyFor exLk exTree 0 "B" = ConsVal.NA
      ∨ ∃ q, consistencyFor exLk exTree 0 "B" = ConsVal.num q ∧ 0 ≤ q ∧ q ≤ 1)
    ∧ (exTree.nodes ≠ [] →
        totalsOf exLk exTree 0 "B" ≤ 1 ∨ "B" = "unclassified" →
        consistencyFor exLk exTree 0 "B" = ConsVal.NA)) :=
  consistency_range_and_na exLk exTree 0 "B" (by decide)

/-- C3: a taxon with tree-wide total ≤ 1 is diverted to 'N/A' before any
division; for the remaining taxa (total ≥ 2) both incongruent terms are
non-negative, so both denominators are at least totalTaxaCount, itself at
least 2, at every internal node — including nodes whose induced leaf set is
empty or the whole leaf set. -/
theorem score_denominators_safe (lk : String → Taxonomy) (t : PTree)
    (r : Fin 3) (taxa : Label) (nd : List String) (hnd : nd ∈ t.nodes) :
    (∀ v, totalsOf lk t r taxa ≤ 1 →
      updateForNode lk r taxa (totalsOf lk t r taxa) (leavesUnder t.leaves) nd v = ConsVal.NA)
    ∧ (2 ≤ totalsOf lk t r taxa →
        0 ≤ (leavesUnder nd : ℚ) - (taxaCountUnder lk nd r taxa : ℚ)
        ∧ 0 ≤ (leavesUnder t.leaves : ℚ) - (leavesUnder nd : ℚ) -
            ((totalsOf lk t r taxa : ℚ) - (taxaCountUnder lk nd r taxa : ℚ))
        ∧ (totalsOf lk t r taxa : ℚ) ≤ (totalsOf lk t r taxa : ℚ) +
            ((leavesUnder nd : ℚ) - (taxaCountUnder lk nd r taxa : ℚ))
        ∧ (totalsOf lk t r taxa : ℚ) ≤ (totalsOf lk t r taxa : ℚ) +
            ((leavesUnder t.leaves : ℚ) - (leavesUnder nd : ℚ) -
              ((totalsOf lk t r taxa : ℚ) - (taxaCountUnder lk nd r taxa : ℚ)))
        ∧ (2 : ℚ) ≤ (totalsOf lk t r taxa : ℚ)) := by
  constructor
  · intro v hv
    exact updateForNode_na lk r taxa _ _ nd (Or.inl hv) v
  · intro htot
    have hb := candidate_bounds hnd lk r taxa htot
    have hq : (2 : ℚ) ≤ (totalsOf lk t r taxa : ℚ) := by exact_mod_cast htot
    exact ⟨hb.1, hb.2.1, by linarith [hb.1], by linarith [hb.2.1], hq⟩

theorem score_denominators_safe_witness :
    (totalsOf exLk exTree 0 "A" : ℚ) ≤ (totalsOf exLk exTree 0 "A" : ℚ) +
      ((leavesUnder ["a1", "a2"] : ℚ) - (taxaCountUnder exLk ["a1", "a2"] 0 "A" : ℚ)) :=
  (((score_denominators_safe exLk exTree 0 "A" ["a1", "a2"] (by decide)).2 (by decide)).2.2.1)

/-! ## Claim theorem for the rank average -/

/-- The taxa that qualify for the rank-`r` average: tree-wide total
strictly above the minimum-sample parameter, and a numeric (non-'N/A')
score. -/
def qualifyingTaxa (lk : String → Taxonomy) (t : PTree) (r : Fin 3)
    (minTaxaForAverage : ℤ) : List Label :=
  (treeTaxa lk t r).filter fun taxa =>
    decide (minTaxaForAverage < (totalsOf lk t r taxa : ℤ)) &&
      decide (consistencyFor lk t r taxa ≠ ConsVal.NA)

/-- The numeric score of a taxon (0 as a dummy for 'N/A'; only applied to
qualifying taxa). -/
def numScore (lk : String → Taxonomy) (t : PTree) (r : Fin 3) (taxa : Label) : ℚ :=
  match consistencyFor lk t r taxa with
  | ConsVal.num q => q
  | ConsVal.NA => 0

theorem filterMap_eq_filter_map {α β : Type _} (f : α → Option β) (p : α → Bool)
    (g : α → β) (hf : ∀ x, f x = if p x then some (g x) else none) (l : List α) :
    l.filterMap f = (l.filter p).map g := by
  induction l with
  | nil => simp
  | cons x xs ih =>
    rw [List.filterMap_cons, hf x]
    by_cases h : p x <;> simp [h, ih, List.filter_cons]

theorem sumConsistencyList_eq (lk : String → Taxonomy) (t : PTree) (r : Fin 3)
    (m : ℤ) :
    sumConsistencyList lk t r m = (qualifyingTaxa lk t r m).map (numScore lk t r) := by
  unfold sumConsistencyList qualifyingTaxa
  refine filterMap_eq_filter_map _ _ _ (fun taxa => ?_) _
  by_cases h : m < (totalsOf lk t r taxa : ℤ)
  · cases hc : consistencyFor lk t r taxa <;> simp [h, hc, numScore]
  · simp [h]

/-- C4: the rank average is the arithmetic mean of exactly the per-taxon
scores of qualifying taxa (total strictly above the minimum-sample
parameter, value numeric); when no taxon qualifies the average is 0. -/
theorem rankAverage_spec (lk : String → Taxonomy) (t : PTree) (r : Fin 3)
    (m : ℤ) :
    (qualifyingTaxa lk t r m = [] → rankAverage lk t r m = 0)
    ∧ (qualifyingTaxa lk t r m ≠ [] →
        rankAverage lk t r m
          = ((qualifyingTaxa lk t r m).map (numScore lk t r)).sum
              / ((qualifyingTaxa lk t r m).length : ℚ)) := by
  constructor
  · intro h
    unfold rankAverage
    rw [sumConsistencyList_eq, h]
    simp
  · intro h
    unfold rankAverage
    rw [sumConsistencyList_eq]
    have hl : 0 < ((qualifyingTaxa lk t r m).map (numScore lk t r)).length := by
      rw [List.length_map]
      exact List.length_pos.2 h
    rw [if_pos hl, List.length_map]

theorem rankAverage_spec_witness :
    rankAverage exLk exPairTree 0 0 = 0 :=
  (rankAverage_spec exLk exPairTree 0 0).1 (by decide)

/-! ## Claim theorem for the organism identifier -/

theorem genomeIdL_rule (l : List Char) :
    genomeIdL l =
      if ("IMG_".toList) <+: l then l.drop 4
      else if '|' ∈ l then l.takeWhile (fun c => c != '|')
      else l := by
  unfold genomeIdL
  by_cases hp : ("IMG_".toList) <+: l
  · rw [if_pos (List.isPrefixOf_iff_prefix.2 hp), if_pos hp]
  · rw [if_neg (fun h => hp (List.isPrefixOf_iff_prefix.1 h)), if_neg hp]
    by_cases hm : '|' ∈ l
    · rw [if_pos (by simpa using hm), if_pos hm, pySplit_head_eq_takeWhile]
    · rw [if_neg (by simpa using hm), if_neg hm]

/-- C8: the derived organism identifier — strip the fixed prefix 'IMG_'
when present (this rule takes precedence); otherwise, when the label
contains the separator '|', the substring before its first occurrence;
otherwise the label unchanged. -/
theorem genomeId_rule (lbl : String) :
    genomeId lbl =
      if ("IMG_".toList) <+: lbl.toList then String.mk (lbl.toList.drop 4)
      else if '|' ∈ lbl.toList then
        String.mk (lbl.toList.takeWhile (fun c => c != '|'))
      else lbl := by
  have hmk : String.mk lbl.toList = lbl := by cases lbl; rfl
  rw [genomeId, genomeIdL_rule]
  by_cases hp : ("IMG_".toList) <+: lbl.toList
  · rw [if_pos hp, if_pos hp]
  · by_cases hm : '|' ∈ lbl.toList
    · rw [if_neg hp, if_neg hp, if_pos hm, if_pos hm]
    · rw [if_neg hp, if_neg hp, if_neg hm, if_neg hm, hmk]

/-! ## The batch run (`ConsistencyTest.run`, lines 85–239)

Out of scope of the claims and not modelled: reading the TIGRFAM/Pfam
description tables, clearing the output directory, writing the per-tree
detail files, and the byte-level copy of retained tree files.  The
descriptive-annotation lookup is passed in as a total function (the design
expects full coverage).  The batch is given as the already-listed,
extension-filtered list of (file name, tree) pairs. -/

/-- A cell of a tab-separated report row, tagged with the formatting the
source applies: a verbatim string, `str(x)` of a number, the percentage
`'%.2f' % (x * 100)`, or the literal 'N/A'. -/
inductive Cell where
  | text : String → Cell
  | numC : ℚ → Cell
  | pctC : ℚ → Cell
  | na : Cell
deriving DecidableEq

/-- `treeFile[0:treeFile.find('.')]` (line 202): Python `find` returns -1
when no dot occurs, in which case the slice drops the last character. -/
def treeId (name : String) : String :=
  if '.' ∈ name.toList then String.mk (name.toList.takeWhile (fun c => c != '.'))
  else String.mk name.toList.dropLast

/-- The per-leaf metadata check of the totals pass (lines 107–115): resolve
every leaf in order; abort with the offending genome id at the first leaf
whose id is missing from the metadata. -/
def resolveLeaves (md : List (String × Taxonomy)) : List String → Except String (List Taxonomy)
  | [] => Except.ok []
  | lbl :: rest =>
    match md.lookup (genomeId lbl) with
    | none => Except.error (genomeId lbl)
    | some ty =>
      match resolveLeaves md rest with
      | Except.error g => Except.error g
      | Except.ok tys => Except.ok (ty :: tys)

/-- The metadata dict as a total lookup (defaulting to a dummy taxonomy;
only applied after `resolveLeaves` has succeeded, so the default is never
read). -/
def mdFun (md : List (String × Taxonomy)) : String → Taxonomy :=
  fun g => (md.lookup g).getD (fun _ => "")

/-- The per-tree data buffered by the batch loop for one tree file:
`allResults[treeFile]`, `taxaCounts[treeFile]`, `avgConsistency[treeFile]`. -/
structure TreeResult where
  name : String
  keys : Fin 3 → List Label
  consistency : Fin 3 → Label → ConsVal
  taxaCounts : ℕ × ℕ × ℕ
  averages : Fin 3 → ℚ

/-- One iteration of the per-tree loop on a successfully resolved tree. -/
def scoreTree (lk : String → Taxonomy) (minTaxa : ℤ) (name : String) (t : PTree) :
    TreeResult where
  name := name
  keys := fun r => treeTaxa lk t r
  consistency := fun r taxa => consistencyFor lk t r taxa
  taxaCounts :=
    (leavesUnder t.leaves, totalsOf lk t 0 "Bacteria", totalsOf lk t 0 "Archaea")
  averages := fun r => rankAverage lk t r minTaxa

/-- The first pass of the batch: score every tree in file order, aborting
the whole batch at the first unresolved leaf. -/
def scoreAll (md : List (String × Taxonomy)) (minTaxa : ℤ) :
    List (String × PTree) → Except String (List TreeResult)
  | [] => Except.ok []
  | (name, t) :: rest =>
    match resolveLeaves md t.leaves with
    | Except.error g => Except.error g
    | Except.ok _ =>
      match scoreAll md minTaxa rest with
      | Except.error g => Except.error g
      | Except.ok results => Except.ok (scoreTree (mdFun md) minTaxa name t :: results)

/-- `allTaxa[r]`: the taxa observed in any tree of the corpus, as an
insertion-ordered key list (the report sorts it, so only the underlying
set matters). -/
def allTaxaOf (results : List TreeResult) (r : Fin 3) : List Label :=
  results.foldl (fun acc res => (res.keys r).foldl insertKey acc) []

/-- `avgCon`: the mean of the three per-rank averages (lines 209–212). -/
def avgConOf (res : TreeResult) : ℚ :=
  (res.averages 0 + res.averages 1 + res.averages 2) / 3

/-- Code-point comparison of strings, as Python 2 `sorted` compares the
(ASCII) tree file names and taxon labels. -/
def charListLe : List Char → List Char → Bool
  | [], _ => true
  | _ :: _, [] => false
  | a :: as, b :: bs =>
    if a.toNat < b.toNat then true
    else if b.toNat < a.toNat then false
    else charListLe as bs

def strLe (a b : String) : Bool := charListLe a.toList b.toList

def insertSorted {α : Type _} (le : α → α → Bool) (x : α) : List α → List α
  | [] => [x]
  | y :: ys => if le x y then x :: y :: ys else y :: insertSorted le x ys

/-- Model of Python `sorted`. -/
def sortBy {α : Type _} (le : α → α → Bool) : List α → List α
  | [] => []
  | x :: xs => insertSorted le x (sortBy le xs)

theorem insertSorted_perm {α : Type _} (le : α → α → Bool) (x : α) (l : List α) :
    (insertSorted le x l).Perm (x :: l) := by
  induction l with
  | nil => exact List.Perm.refl _
  | cons y ys ih =>
    unfold insertSorted
    by_cases h : le x y
    · rw [if_pos h]
    · rw [if_neg h]
      exact (ih.cons y).trans (List.Perm.swap x y ys)

theorem sortBy_perm {α : Type _} (le : α → α → Bool) (l : List α) :
    (sortBy le l).Perm l := by
  induction l with
  | nil => exact List.Perm.refl _
  | cons x xs ih =>
    exact (insertSorted_perm le x (sortBy le xs)).trans (ih.cons x)

/-- The fixed header columns of the combined report (line 192) — note the
'Alignment Length' column. -/
def headerFixed : List Cell :=
  [Cell.text "Tree", Cell.text "Short Desc.", Cell.text "Long Desc.",
   Cell.text "Alignment Length", Cell.text "# Taxa", Cell.text "# Bacteria",
   Cell.text "# Archaea", Cell.text "Avg. Consistency",
   Cell.text "Avg. Domain Consistency", Cell.text "Avg. Phylum Consistency",
   Cell.text "Avg. Class Consistency"]

/-- The header row (lines 192–196): the fixed columns, then one column per
observed taxon per rank, sorted. -/
def headerCells (results : List TreeResult) : List Cell :=
  headerFixed ++ (([0, 1, 2] : List (Fin 3)).flatMap fun r =>
    (sortBy strLe (allTaxaOf results r)).map Cell.text)

/-- One data row of the combined report (lines 200–233): the fixed values
actually written — tree id, short and long description, the three taxa
counts, `avgCon`, the three per-rank averages — then one cell per globally
observed taxon, rendering 'N/A' when the taxon is not a key of this tree's
dict. -/
def rowCells (descD : String → String × String) (allTaxa : Fin 3 → List Label)
    (res : TreeResult) : List Cell :=
  [Cell.text (treeId res.name),
   Cell.text (descD (treeId res.name)).1,
   Cell.text (descD (treeId res.name)).2,
   Cell.numC (res.taxaCounts.1 : ℚ),
   Cell.numC (res.taxaCounts.2.1 : ℚ),
   Cell.numC (res.taxaCounts.2.2 : ℚ),
   Cell.numC (avgConOf res),
   Cell.numC (res.averages 0), Cell.numC (res.averages 1), Cell.numC (res.averages 2)]
  ++ (([0, 1, 2] : List (Fin 3)).flatMap fun r =>
      (sortBy strLe (allTaxa r)).map fun taxa =>
        if taxa ∈ res.keys r then
          match res.consistency r taxa with
          | ConsVal.num q => Cell.pctC q
          | ConsVal.NA => Cell.na
        else Cell.na)

/-- The retained/filtered tally of the report loop (lines 198–219): a tree
is retained iff `avgCon >= consistencyThreshold` (boundary inclusive). -/
def tallyCounts (threshold : ℚ) (results : List TreeResult) : ℕ × ℕ :=
  results.foldl
    (fun fr res => if threshold ≤ avgConOf res then (fr.1, fr.2 + 1) else (fr.1 + 1, fr.2))
    (0, 0)

/-- `ConsistencyTest.run` on a listed batch: score every tree (first pass),
then assemble the combined report over the trees sorted by file name, and
return `(filteredGeneTrees, retainedGeneTrees)` alongside the report rows. -/
def runBatch (md : List (String × Taxonomy)) (descD : String → String × String)
    (consistencyThreshold : ℚ) (minTaxaForAverage : ℤ)
    (treeFiles : List (String × PTree)) :
    Except String (List (List Cell) × ℕ × ℕ) :=
  match scoreAll md minTaxaForAverage treeFiles with
  | Except.error g => Except.error g
  | Except.ok results =>
    let sortedResults := sortBy (fun a b => strLe a.name b.name) results
    Except.ok
      (headerCells results :: sortedResults.map (rowCells descD (allTaxaOf results)),
       (tallyCounts consistencyThreshold sortedResults).1,
       (tallyCounts consistencyThreshold sortedResults).2)

/-! ## Batch-run lemmas -/

/-- The first leaf in `ls` whose genome id is missing from the metadata. -/
def firstUnresolvedLeaf (md : List (String × Taxonomy)) : List String → Option String
  | [] => none
  | lbl :: rest =>
    if (md.lookup (genomeId lbl)).isSome then firstUnresolvedLeaf md rest
    else some (genomeId lbl)

/-- The first unresolved genome id of the whole batch, in batch order. -/
def firstUnresolved (md : List (String × Taxonomy)) :
    List (String × PTree) → Option String
  | [] => none
  | p :: rest =>
    match firstUnresolvedLeaf md p.2.leaves with
    | some g => some g
    | none => firstUnresolved md rest

theorem resolveLeaves_error (md : List (String × Taxonomy)) (ls : List String)
    (g : String) (h : firstUnresolvedLeaf md ls = some g) :
    resolveLeaves md ls = Except.error g := by
  induction ls with
  | nil => simp [firstUnresolvedLeaf] at h
  | cons lbl rest ih =>
    unfold firstUnresolvedLeaf at h
    unfold resolveLeaves
    by_cases hs : (md.lookup (genomeId lbl)).isSome
    · rw [if_pos hs] at h
      obtain ⟨ty, hty⟩ := Option.isSome_iff_exists.1 hs
      rw [hty, ih h]
    · rw [if_neg hs] at h
      rw [Option.not_isSome_iff_eq_none.1 hs]
      simpa using h

theorem resolveLeaves_ok (md : List (String × Taxonomy)) (ls : List String)
    (h : firstUnresolvedLeaf md ls = none) :
    ∃ tys, resolveLeaves md ls = Except.ok tys := by
  induction ls with
  | nil => exact ⟨[], rfl⟩
  | cons lbl rest ih =>
    unfold firstUnresolvedLeaf at h
    by_cases hs : (md.lookup (genomeId lbl)).isSome
    · rw [if_pos hs] at h
      obtain ⟨ty, hty⟩ := Option.isSome_iff_exists.1 hs
      obtain ⟨tys, htys⟩ := ih h
      exact ⟨ty :: tys, by unfold resolveLeaves; rw [hty, htys]⟩
    · rw [if_neg hs] at h
      simp at h

theorem firstUnresolvedLeaf_spec (md : List (String × Taxonomy)) (ls : List String)
    (g : String) (h : firstUnresolvedLeaf md ls = some g) :
    md.lookup g = none ∧ ∃ lbl ∈ ls, genomeId lbl = g := by
  induction ls with
  | nil => simp [firstUnresolvedLeaf] at h
  | cons lbl rest ih =>
    unfold firstUnresolvedLeaf at h
    by_cases hs : (md.lookup (genomeId lbl)).isSome
    · rw [if_pos hs] at h
      obtain ⟨hn, lbl', hmem, hg⟩ := ih h
      exact ⟨hn, lbl', List.mem_cons_of_mem _ hmem, hg⟩
    · rw [if_neg hs] at h
      have hg : genomeId lbl = g := by simpa using h
      subst hg
      exact ⟨Option.not_isSome_iff_eq_none.1 hs, lbl, List.mem_cons_self _ _, rfl⟩

theorem firstUnresolved_spec (md : List (String × Taxonomy))
    (files : List (String × PTree)) (g : String)
    (h : firstUnresolved md files = some g) :
    md.lookup g = none ∧ ∃ p ∈ files, ∃ lbl ∈ p.2.leaves, genomeId lbl = g := by
  induction files with
  | nil => simp [firstUnresolved] at h
  | cons p rest ih =>
    unfold firstUnresolved at h
    cases hf : firstUnresolvedLeaf md p.2.leaves with
    | some g' =>
      rw [hf] at h
      have hg : g' = g := by simpa using h
      subst hg
      obtain ⟨hn, lbl, hmem, hl⟩ := firstUnresolvedLeaf_spec md p.2.leaves g' hf
      exact ⟨hn, p, List.mem_cons_self _ _, lbl, hmem, hl⟩
    | none =>
      rw [hf] at h
      obtain ⟨hn, p', hp', rest'⟩ := ih h
      exact ⟨hn, p', List.mem_cons_of_mem _ hp', rest'⟩

theorem scoreAll_error (md : List (String × Taxonomy)) (m : ℤ)
    (files : List (String × PTree)) (g : String)
    (h : firstUnresolved md files = some g) :
    scoreAll md m files = Except.error g := by
  induction files with
  | nil => simp [firstUnresolved] at h
  | cons p rest ih =>
    obtain ⟨name, t⟩ := p
    unfold firstUnresolved at h
    unfold scoreAll
    cases hf : firstUnresolvedLeaf md t.leaves with
    | some g' =>
      rw [hf] at h
      have hg : g' = g := by simpa using h
      subst hg
      rw [resolveLeaves_error md t.leaves g' hf]
    | none =>
      rw [hf] at h
      obtain ⟨tys, htys⟩ := resolveLeaves_ok md t.leaves hf
      rw [htys, ih h]

theorem scoreAll_ok_of_resolved (md : List (String × Taxonomy)) (m : ℤ)
    (files : List (String × PTree))
    (h : firstUnresolved md files = none) :
    scoreAll md m files
      = Except.ok (files.map fun p => scoreTree (mdFun md) m p.1 p.2) := by
  induction files with
  | nil => rfl
  | cons p rest ih =>
    obtain ⟨name, t⟩ := p
    unfold firstUnresolved at h
    cases hf : firstUnresolvedLeaf md t.leaves with
    | some g' =>
      rw [hf] at h
      simp at h
    | none =>
      rw [hf] at h
      obtain ⟨tys, htys⟩ := resolveLeaves_ok md t.leaves hf
      unfold scoreAll
      rw [htys, ih h]
      rfl

theorem tallyCounts_foldl_aux (th : ℚ) (results : List TreeResult) :
    ∀ fr : ℕ × ℕ,
      results.foldl
        (fun fr res => if th ≤ avgConOf res then (fr.1, fr.2 + 1) else (fr.1 + 1, fr.2)) fr
        = (fr.1 + results.countP (fun res => !decide (th ≤ avgConOf res)),
           fr.2 + results.countP (fun res => decide (th ≤ avgConOf res))) := by
  induction results with
  | nil => intro fr; simp
  | cons res rest ih =>
    intro fr
    rw [List.foldl_cons]
    by_cases h : th ≤ avgConOf res
    · rw [if_pos h, ih, List.countP_cons, List.countP_cons]
      simp [h]
      omega
    · rw [if_neg h, ih, List.countP_cons, List.countP_cons]
      simp [h]
      omega

theorem tallyCounts_eq (th : ℚ) (results : List TreeResult) :
    tallyCounts th results
      = (results.countP (fun res => !decide (th ≤ avgConOf res)),
         results.countP (fun res => decide (th ≤ avgConOf res))) := by
  simpa [tallyCounts] using tallyCounts_foldl_aux th results (0, 0)

/-! ## Claim theorems for the batch run -/

/-- C5: on a batch where every leaf resolves, the run returns the pair
(filtered count, retained count): a tree is counted retained iff its
overall average — the mean of its three per-rank averages — is at least
the consistency threshold (the boundary is inclusive), and filtered
otherwise. -/
theorem run_counts_spec (md : List (String × Taxonomy))
    (descD : String → String × String) (th : ℚ) (m : ℤ)
    (files : List (String × PTree))
    (h : firstUnresolved md files = none) :
    (∃ rows,
      runBatch md descD th m files
        = Except.ok (rows,
            files.countP (fun p => !decide (th ≤ avgConOf (scoreTree (mdFun md) m p.1 p.2))),
            files.countP (fun p => decide (th ≤ avgConOf (scoreTree (mdFun md) m p.1 p.2)))))
    ∧ ∀ p ∈ files,
        avgConOf (scoreTree (mdFun md) m p.1 p.2)
          = (rankAverage (mdFun md) p.2 0 m + rankAverage (mdFun md) p.2 1 m
              + rankAverage (mdFun md) p.2 2 m) / 3 := by
  have hs := scoreAll_ok_of_resolved md m files h
  constructor
  · have hperm : (sortBy (fun a b => strLe a.name b.name)
        (files.map fun p => scoreTree (mdFun md) m p.1 p.2)).Perm
        (files.map fun p => scoreTree (mdFun md) m p.1 p.2) := sortBy_perm _ _
    have hc1 : (tallyCounts th (sortBy (fun a b => strLe a.name b.name)
        (files.map fun p => scoreTree (mdFun md) m p.1 p.2))).1
        = files.countP (fun p => !decide (th ≤ avgConOf (scoreTree (mdFun md) m p.1 p.2))) := by
      rw [tallyCounts_eq, hperm.countP_eq, List.countP_map]
      rfl
    have hc2 : (tallyCounts th (sortBy (fun a b => strLe a.name b.name)
        (files.map fun p => scoreTree (mdFun md) m p.1 p.2))).2
        = files.countP (fun p => decide (th ≤ avgConOf (scoreTree (mdFun md) m p.1 p.2))) := by
      rw [tallyCounts_eq]
      show List.countP (fun res => decide (th ≤ avgConOf res))
          (sortBy (fun a b => strLe a.name b.name)
            (files.map fun p => scoreTree (mdFun md) m p.1 p.2)) = _
      rw [hperm.countP_eq, List.countP_map]
      rfl
    refine ⟨headerCells (files.map fun p => scoreTree (mdFun md) m p.1 p.2) ::
      (sortBy (fun a b => strLe a.name b.name)
        (files.map fun p => scoreTree (mdFun md) m p.1 p.2)).map
        (rowCells descD (allTaxaOf (files.map fun p => scoreTree (mdFun md) m p.1 p.2))), ?_⟩
    unfold runBatch
    rw [hs, ← hc1, ← hc2]
  · intro p _
    rfl

theorem run_counts_spec_witness :
    (∃ rows,
      runBatch [("a1", exLk "a1"), ("a2", exLk "a2"), ("a3", exLk "a3"), ("b1", exLk "b1")]
          (fun _ => ("d", "d")) (1/2) 0 [("t1.tree", exTree)]
        = Except.ok (rows,
            [("t1.tree", exTree)].countP
              (fun p => !decide ((1 : ℚ)/2 ≤ avgConOf
                (scoreTree (mdFun [("a1", exLk "a1"), ("a2", exLk "a2"),
                  ("a3", exLk "a3"), ("b1", exLk "b1")]) 0 p.1 p.2))),
            [("t1.tree", exTree)].countP
              (fun p => decide ((1 : ℚ)/2 ≤ avgConOf
                (scoreTree (mdFun [("a1", exLk "a1"), ("a2", exLk "a2"),
                  ("a3", exLk "a3"), ("b1", exLk "b1")]) 0 p.1 p.2)))))
    ∧ ∀ p ∈ [("t1.tree", exTree)],
        avgConOf (scoreTree (mdFun [("a1", exLk "a1"), ("a2", exLk "a2"),
            ("a3", exLk "a3"), ("b1", exLk "b1")]) 0 p.1 p.2)
          = (rankAverage (mdFun [("a1", exLk "a1"), ("a2", exLk "a2"),
                ("a3", exLk "a3"), ("b1", exLk "b1")]) p.2 0 0
              + rankAverage (mdFun [("a1", exLk "a1"), ("a2", exLk "a2"),
                ("a3", exLk "a3"), ("b1", exLk "b1")]) p.2 1 0
              + rankAverage (mdFun [("a1", exLk "a1"), ("a2", exLk "a2"),
                ("a3", exLk "a3"), ("b1", exLk "b1")]) p.2 2 0) / 3 :=
  run_counts_spec _ _ (1/2) 0 [("t1.tree", exTree)] (by decide)

/-- C6: when some leaf of some tree in the batch has a genome id absent
from the taxonomy lookup, the whole batch aborts with the first such id:
`runBatch` is an error carrying an id that is indeed absent from the lookup
and stems from a leaf of a batch tree — no report rows and no counts are
produced. -/
theorem run_aborts_on_unresolved (md : List (String × Taxonomy))
    (descD : String → String × String) (th : ℚ) (m : ℤ)
    (files : List (String × PTree)) (g : String)
    (h : firstUnresolved md files = some g) :
    runBatch md descD th m files = Except.error g
    ∧ md.lookup g = none
    ∧ ∃ p ∈ files, ∃ lbl ∈ p.2.leaves, genomeId lbl = g := by
  obtain ⟨hn, hex⟩ := firstUnresolved_spec md files g h
  refine ⟨?_, hn, hex⟩
  unfold runBatch
  rw [scoreAll_error md m files g h]

theorem run_aborts_on_unresolved_witness :
    runBatch [] (fun _ => ("d", "d")) (1/2) 0 [("t1.tree", exLeafTree)]
        = Except.error "a1"
    ∧ List.lookup "a1" ([] : List (String × Taxonomy)) = none
    ∧ ∃ p ∈ [("t1.tree", exLeafTree)], ∃ lbl ∈ p.2.leaves, genomeId lbl = "a1" :=
  run_aborts_on_unresolved [] (fun _ => ("d", "d")) (1/2) 0
    [("t1.tree", exLeafTree)] "a1" (by decide)

/-- The shape of a successful report: lengths of the header row and of the
first data row. -/
def reportShape (e : Except String (List (List Cell) × ℕ × ℕ)) : Option (ℕ × ℕ) :=
  match e with
  | Except.error _ => none
  | Except.ok out => some ((out.1.headD []).length, ((out.1.drop 1).headD []).length)

/-- C7 (evaluation at the failing input): on a successful 1-tree batch with
4 observed taxon columns, the header row has 11 + 4 = 15 cells — its fixed
part declares 'Alignment Length' — while the data row writes only
10 + 4 = 14 cells, so from the taxa count onwards every data value sits
under the wrong header column. -/
theorem report_header_row_mismatch :
    reportShape (runBatch [("a1", exLk "a1"), ("a2", exLk "a2"), ("a3", exLk "a3"),
        ("b1", exLk "b1")] (fun _ => ("d", "d")) (1/2) 0 [("t1.tree", exTree)])
      = some (15, 14)
    ∧ headerFixed.length = 11 := by
  exact ⟨by decide, rfl⟩

/-! ## `InferMarkers` (infer_markers.py)

The gene count table `d[family_id][genome_id] -> set(gene_ids)` is modelled
as an association list of association lists, with gene sets as lists.
File output rows and logging are not modelled. -/

/-- `InferMarkers._trusted_genomes` (lines 76–119), applied to the parsed
quality table: a genome id missing from the table defaults to completeness
0 and contamination 100 (`genome_quality.get(genome_id, (0, 100))`); a
genome is trusted iff `comp >= trusted_comp*100` and
`cont <= trusted_cont*100`.  The Python result is a set; membership in
this list is set membership. -/
def trustedGenomes (genome_ids : List String) (trusted_comp trusted_cont : ℚ)
    (genome_quality : List (String × ℚ × ℚ)) : List String :=
  genome_ids.filter fun genome_id =>
    decide (trusted_comp * 100 ≤ ((genome_quality.lookup genome_id).getD (0, 100)).1) &&
      decide (((genome_quality.lookup genome_id).getD (0, 100)).2 ≤ trusted_cont * 100)

/-- `len(genes_in_genomes.get(genome_id, []))` for a family row. -/
def geneCount (row : List (String × List String)) (genome_id : String) : ℕ :=
  ((row.lookup genome_id).getD []).length

/-- `ubiquity`: genomes of interest with at least one gene of the family. -/
def ubiquityOf (genome_ids : List String) (row : List (String × List String)) : ℕ :=
  genome_ids.countP fun gid => decide (0 < geneCount row gid)

/-- `single_copy`: genomes of interest with exactly one gene of the family. -/
def singleCopyOf (genome_ids : List String) (row : List (String × List String)) : ℕ :=
  genome_ids.countP fun gid => decide (geneCount row gid = 1)

/-- The selection test of `_marker_genes` (line 260):
`ubiquity >= ubiquity_threshold * len(genome_ids)` and
`single_copy >= single_copy_threshold * ubiquity`. -/
def markerKeep (genome_ids : List String) (ut st : ℚ)
    (fam : String × List (String × List String)) : Bool :=
  decide (ut * (genome_ids.length : ℚ) ≤ (ubiquityOf genome_ids fam.2 : ℚ)) &&
    decide (st * (ubiquityOf genome_ids fam.2 : ℚ) ≤ (singleCopyOf genome_ids fam.2 : ℚ))

/-- The `(u, s)` percentage statistics recorded for a kept family
(lines 256–257, 261). -/
def famStats (genome_ids : List String)
    (fam : String × List (String × List String)) : String × ℚ × ℚ :=
  (fam.1,
   (ubiquityOf genome_ids fam.2 : ℚ) * 100 / (genome_ids.length : ℚ),
   (singleCopyOf genome_ids fam.2 : ℚ) * 100 / (ubiquityOf genome_ids fam.2 : ℚ))

/-- `InferMarkers._marker_genes` (lines 213–265): the degenerate-threshold
warning (line 235–236), then accumulation of the families passing the
selection test, each with its statistics. -/
def markerGenesRun (genome_ids : List String)
    (gene_count_table : List (String × List (String × List String)))
    (ubiquity_threshold single_copy_threshold : ℚ) :
    Bool × List (String × ℚ × ℚ) :=
  (decide (1 < ubiquity_threshold) || decide (1 < single_copy_threshold),
   gene_count_table.foldl
     (fun markers fam =>
       if markerKeep genome_ids ubiquity_threshold single_copy_threshold fam then
         markers ++ [famStats genome_ids fam]
       else markers)
     [])

/-- The marker set described by the selection rule, applied uniformly to
the caller's threshold values. -/
def markerSelect (genome_ids : List String)
    (gene_count_table : List (String × List (String × List String)))
    (ut st : ℚ) : List (String × ℚ × ℚ) :=
  (gene_count_table.filter (markerKeep genome_ids ut st)).map (famStats genome_ids)

/-- Ordered pairs `(i, j)` with `i` before `j` of the marker list (the
double loop of lines 305–316). -/
def pairsAfter : List String → List (String × String)
  | [] => []
  | x :: xs => (xs.map fun y => (x, y)) ++ pairsAfter xs

/-- `redundancy_count[i][j]`: genomes in which both HMMs hit at least one
common gene (lines 313–316). -/
def redCount (tbl : List (String × List (String × List String)))
    (a b : String) : ℕ :=
  ((tbl.lookup a).getD []).countP fun ga =>
    match ((tbl.lookup b).getD []).lookup ga.1 with
    | some genes2 => ga.2.any fun g => genes2.contains g
    | none => false

/-- Occurrence of `pat` as a contiguous run, at any position. -/
def isInfixB (pat : List Char) : List Char → Bool
  | [] => pat.isEmpty
  | c :: rest => pat.isPrefixOf (c :: rest) || isInfixB pat rest

/-- The substring test `pat in s` of Python. -/
def hasSub (pat : List Char) (s : String) : Bool := isInfixB pat s.toList

/-- `s.replace(pat, '')` on character lists: every occurrence of the
(non-empty) pattern removed. -/
def replaceAllChars (pat : List Char) : List Char → List Char
  | [] => []
  | c :: rest =>
    if pat ≠ [] ∧ pat.isPrefixOf (c :: rest) then
      replaceAllChars pat ((c :: rest).drop pat.length)
    else c :: replaceAllChars pat rest
termination_by l => l.length
decreasing_by
  · rename_i hyp
    simp only [List.length_drop, List.length_cons]
    have hlen : 1 ≤ pat.length := by
      cases pat with
      | nil => exact absurd rfl hyp.1
      | cons p ps => simp
    omega
  · simp only [List.length_cons]
    omega

/-- `int(...)` of the digits left after stripping the model prefix. -/
def pyInt (s : List Char) : ℕ :=
  s.foldl (fun acc c => acc * 10 + (c.toNat - '0'.toNat)) 0

/-- One resolution step of the redundant-pair loop (lines 334–367): skip
when either member is already marked; otherwise discard the Pfam model of a
mixed pair (note the source tests `'pfam' in marker_gene_i` in the second
branch), and the higher-numbered model of a same-family pair. -/
def removeStep (p : String × String) (acc : List String) : List String :=
  if p.1 ∈ acc ∨ p.2 ∈ acc then acc
  else if hasSub ("PF".toList) p.1 ∧ ¬ hasSub ("PF".toList) p.2 = true then acc ++ [p.1]
  else if ¬ hasSub ("pfam".toList) p.1 = true ∧ hasSub ("PF".toList) p.2 then acc ++ [p.2]
  else if hasSub ("PF".toList) p.1 ∧ hasSub ("PF".toList) p.2 then
    if pyInt (replaceAllChars ("PF".toList) p.2.toList)
        < pyInt (replaceAllChars ("PF".toList) p.1.toList) then acc ++ [p.1]
    else acc ++ [p.2]
  else
    if pyInt (replaceAllChars ("TIGR".toList) p.2.toList)
        < pyInt (replaceAllChars ("TIGR".toList) p.1.toList) then acc ++ [p.1]
    else acc ++ [p.2]

/-- `InferMarkers._identify_redundant_hmms` (lines 267–371): the degenerate
redundancy warning (lines 295–296), then resolution over the pairs whose
co-hit count exceeds `redundancy`, in pair-construction order (a
determinisation of Python 2's unspecified dict iteration order). -/
def identifyRedundantRun (marker_genes : List String)
    (gene_count_table : List (String × List (String × List String)))
    (redundancy : ℚ) : Bool × List String :=
  (decide (redundancy < 1),
   (pairsAfter marker_genes).foldl
     (fun acc p =>
       if redundancy < (redCount gene_count_table p.1 p.2 : ℚ) then removeStep p acc
       else acc)
     [])

/-- The removal loop restricted upfront to the pairs exceeding the
caller's redundancy value. -/
def redundantSelect (marker_genes : List String)
    (gene_count_table : List (String × List (String × List String)))
    (redundancy : ℚ) : List String :=
  ((pairsAfter marker_genes).filter fun p =>
      decide (redundancy < (redCount gene_count_table p.1 p.2 : ℚ))).foldl
    (fun acc p => removeStep p acc) []

theorem foldl_append_eq_filter_map {α β : Type _} (p : α → Bool) (g : α → β)
    (l : List α) :
    ∀ b : List β,
      l.foldl (fun acc x => if p x then acc ++ [g x] else acc) b
        = b ++ (l.filter p).map g := by
  induction l with
  | nil => intro b; simp
  | cons x xs ih =>
    intro b
    rw [List.foldl_cons]
    by_cases h : p x
    · rw [if_pos h, ih, List.filter_cons, if_pos h]
      simp
    · rw [if_neg h, ih, List.filter_cons, if_neg h]

theorem foldl_guard_eq_filter {α β : Type _} (f : β → α → β) (p : α → Prop)
    [DecidablePred p] (l : List α) :
    ∀ b : β,
      l.foldl (fun acc x => if p x then f acc x else acc) b
        = (l.filter fun x => decide (p x)).foldl f b := by
  induction l with
  | nil => intro b; simp
  | cons x xs ih =>
    intro b
    rw [List.foldl_cons]
    by_cases h : p x
    · simp [h, ih, List.filter_cons]
    · simp [h, ih, List.filter_cons]

/-! ## Claim theorems for the marker routines -/

/-- C9: the marker-selection routines warn exactly on degenerate parameter
values (ubiquity or single-copy threshold above 1, redundancy threshold
below 1) and otherwise proceed unchanged: the returned marker set and
redundant-HMM set are computed from the caller's values by the same
selection rule as for non-degenerate values. -/
theorem degenerate_params_warn_only (genome_ids : List String)
    (tbl : List (String × List (String × List String)))
    (marker_genes : List String) (ut st red : ℚ) :
    ((markerGenesRun genome_ids tbl ut st).1 = true ↔ (1 < ut ∨ 1 < st))
    ∧ (markerGenesRun genome_ids tbl ut st).2 = markerSelect genome_ids tbl ut st
    ∧ ((identifyRedundantRun marker_genes tbl red).1 = true ↔ red < 1)
    ∧ (identifyRedundantRun marker_genes tbl red).2
        = redundantSelect marker_genes tbl red := by
  refine ⟨?_, ?_, ?_, ?_⟩
  · unfold markerGenesRun
    simp
  · show (tbl.foldl (fun markers fam =>
        if markerKeep genome_ids ut st fam then markers ++ [famStats genome_ids fam]
        else markers) []) = _
    rw [foldl_append_eq_filter_map]
    simp [markerSelect]
  · unfold identifyRedundantRun
    simp
  · show ((pairsAfter marker_genes).foldl (fun acc p =>
        if red < (redCount tbl p.1 p.2 : ℚ) then removeStep p acc else acc) []) = _
    rw [foldl_guard_eq_filter (fun acc p => removeStep p acc)
      (fun p => red < (redCount tbl p.1 p.2 : ℚ))]
    rfl

/-- C10: a genome id absent from the quality file is treated as having
completeness 0 and contamination 100, hence trusted iff
`trusted_comp*100 ≤ 0` and `100 ≤ trusted_cont*100`; any genome with a
file entry is judged solely against that entry. -/
theorem trustedGenomes_spec (genome_ids : List String) (tc tcn : ℚ)
    (gq : List (String × ℚ × ℚ)) (gid : String) :
    (gq.lookup gid = none →
      (gid ∈ trustedGenomes genome_ids tc tcn gq
        ↔ gid ∈ genome_ids ∧ tc * 100 ≤ 0 ∧ 100 ≤ tcn * 100))
    ∧ (∀ c ct, gq.lookup gid = some (c, ct) →
      (gid ∈ trustedGenomes genome_ids tc tcn gq
        ↔ gid ∈ genome_ids ∧ tc * 100 ≤ c ∧ ct ≤ tcn * 100)) := by
  constructor
  · intro h
    unfold trustedGenomes
    rw [List.mem_filter]
    simp [h]
  · intro c ct h
    unfold trustedGenomes
    rw [List.mem_filter]
    simp [h]

theorem trustedGenomes_spec_witness :
    "g1" ∈ trustedGenomes ["g1"] 0 1 []
      ↔ "g1" ∈ ["g1"] ∧ (0 : ℚ) * 100 ≤ 0 ∧ 100 ≤ (1 : ℚ) * 100 :=
  (trustedGenomes_spec ["g1"] 0 1 [] "g1").1 rfl

/-- Sanity check against the worked scenario of the design document: in the
4-leaf tree with rank-0 taxa A,A,A,B, the node holding two A leaves scores
2/(3+0) = 2/3 on its own side and 1/(3+1) = 1/4 on the complementary side
for taxon A. -/
theorem spec_example_node_scores :
    dCand exLk ["a1", "a2"] 0 "A" (totalsOf exLk exTree 0 "A") = 2/3
    ∧ cCand exLk ["a1", "a2"] 0 "A" (totalsOf exLk exTree 0 "A")
        (leavesUnder exTree.leaves) = 1/4 := by
  have h1 : taxaCountUnder exLk ["a1", "a2"] 0 "A" = 2 := by decide
  have h2 : leavesUnder (["a1", "a2"] : List String) = 2 := by decide
  have h3 : totalsOf exLk exTree 0 "A" = 3 := by decide
  have h4 : leavesUnder exTree.leaves = 4 := by decide
  constructor
  · rw [dCand, h1, h2, h3]
    norm_num
  · rw [cCand, h1, h2, h3, h4]
    norm_num

end GenomeTreeTk
